import Mathlib

/-!
Verification of the face-authentication attendance system core.

Shallow embedding of the three core modules:
* `face_utils.py` — `FaceRecognitionEngine` (gallery, matcher, enrollment);
* `db.py` — `AttendanceDB` (day-scoped punch-in/punch-out ledger and summaries);
* `spoof.py` — `LivenessDetector` (frame-variation and blink heuristics).

External capabilities (face detection, encoding extraction, landmark
extraction, grayscale conversion) are passed in as data: a list of detected
face locations, an optional probe embedding, an optional eye-aspect-ratio
sample per frame.  Distances are produced by an explicit distance function
standing for `face_recognition.face_distance`.  Floating-point numbers are
modelled by rationals, wall-clock times of day by seconds since midnight, and
calendar dates by year/month/day triples ordered lexicographically (the code
compares zero-padded ISO date strings, which agree with that order).
Stateful methods are embedded in state-passing style, returning the updated
state together with a log of attempted persistence events, so that frame
conditions and persistence-failure behaviour are expressible.
-/

namespace FaceAttend

/-- A detected face location `(top, right, bottom, left)`. -/
abbrev Loc := ℕ × ℕ × ℕ × ℕ

/-- The in-memory gallery: `known_faces`, a mapping from user name to the list
of stored embeddings, in insertion order (Python dict semantics, unique keys). -/
abbrev Gallery (E : Type) := List (String × List E)

/-- The `FaceRecognitionEngine` state: matching tolerance and the gallery. -/
structure Engine (E : Type) where
  tolerance : ℚ
  known_faces : Gallery E
deriving DecidableEq

/-- One attempted call to `save_encodings`: whether the underlying pickle write
succeeded (`ok`) and the gallery snapshot that was written.  A failed save is
caught inside `save_encodings` (it only displays a UI error), so the caller
observes no exception either way. -/
structure SaveEvent (E : Type) where
  ok : Bool
  snapshot : Gallery E
deriving DecidableEq

/-- Which return branch of `recognize_face` produced the result (standing for
the message string of the Python dict). -/
inductive ROutcome
  | noFace
  | multipleFaces
  | emptyGallery
  | encodingFailed
  | noKnownFaces
  | matched
  | belowThreshold
deriving DecidableEq, Repr

/-- The dict returned by `recognize_face`. -/
structure RecResult where
  success : Bool
  name : Option String
  confidence : ℚ
  outcome : ROutcome
  distances : List ℚ
deriving DecidableEq, Repr

/-- The flattened `(all_known_names, all_known_encodings)` pair lists built by
`recognize_face`, kept as one list of pairs in dict iteration order. -/
def flatPairs {E : Type} (kf : Gallery E) : List (String × E) :=
  kf.flatMap fun p => p.2.map fun e => (p.1, e)

/-- `np.argmin`: index of the first occurrence of the minimum of a list. -/
def argminIdx : List ℚ → ℕ
  | [] => 0
  | [_] => 0
  | x :: y :: ys =>
      if x ≤ (y :: ys).getD (argminIdx (y :: ys)) 0 then 0
      else argminIdx (y :: ys) + 1

/-- The distance list `face_recognition.face_distance(all_known_encodings,
unknown_encoding)` over the flattened gallery. -/
def recDistances {E : Type} (eng : Engine E) (distFn : E → E → ℚ) (probe : E) : List ℚ :=
  (flatPairs eng.known_faces).map fun pr => distFn pr.2 probe

/-- `distances[best_match_idx]`, the best (smallest) distance. -/
def bestDist {E : Type} (eng : Engine E) (distFn : E → E → ℚ) (probe : E) : ℚ :=
  (recDistances eng distFn probe).getD (argminIdx (recDistances eng distFn probe)) 0

/-- `all_known_names[best_match_idx]`, the name owning the best embedding. -/
def bestName {E : Type} (eng : Engine E) (distFn : E → E → ℚ) (probe : E) : String :=
  ((flatPairs eng.known_faces).map Prod.fst).getD
    (argminIdx (recDistances eng distFn probe)) ""

/-- `FaceRecognitionEngine.recognize_face`.  `locs` is the detection result for
the probe image, `enc` the embedding the capability extracted for the single
detected face (`none` when `face_encodings` produced nothing).  Returns the
result dict, the engine after the call, and the persistence events performed. -/
def recognize_face {E : Type} (eng : Engine E) (distFn : E → E → ℚ)
    (locs : List Loc) (enc : Option E) :
    RecResult × Engine E × List (SaveEvent E) :=
  if locs.length == 0 then
    (⟨false, none, 0, ROutcome.noFace, []⟩, eng, [])
  else if 1 < locs.length then
    (⟨false, none, 0, ROutcome.multipleFaces, []⟩, eng, [])
  else if eng.known_faces.isEmpty then
    (⟨false, none, 0, ROutcome.emptyGallery, []⟩, eng, [])
  else
    match enc with
    | none => (⟨false, none, 0, ROutcome.encodingFailed, []⟩, eng, [])
    | some probe =>
      let dl := recDistances eng distFn probe
      if dl.length == 0 then
        (⟨false, none, 0, ROutcome.noKnownFaces, []⟩, eng, [])
      else if bestDist eng distFn probe < eng.tolerance then
        (⟨true, some (bestName eng distFn probe),
          1 - bestDist eng distFn probe / eng.tolerance, ROutcome.matched, dl⟩, eng, [])
      else
        (⟨false, none, 0, ROutcome.belowThreshold, dl⟩, eng, [])

/-- Which return branch of `register_face` produced the result. -/
inductive RegOutcome
  | noFace
  | multipleFaces
  | encodingFailed
  | addedScan
  | registeredNew
deriving DecidableEq, Repr

/-- The dict returned by `register_face`. -/
structure RegResult (E : Type) where
  success : Bool
  outcome : RegOutcome
  encoding : Option E
deriving DecidableEq

/-- `user_name in self.known_faces`. -/
def hasUser {E : Type} (kf : Gallery E) (u : String) : Bool :=
  kf.any fun p => p.1 == u

/-- The gallery mutation inside `register_face`: append the encoding to an
existing user, or create the user with a singleton list. -/
def addEncoding {E : Type} (kf : Gallery E) (u : String) (e : E) : Gallery E :=
  if hasUser kf u then
    kf.map fun p => if p.1 == u then (p.1, p.2 ++ [e]) else p
  else
    kf ++ [(u, [e])]

/-- `FaceRecognitionEngine.save_encodings`: attempts one pickle write of the
gallery; an exception is caught and shown as a UI error, so the in-memory
state and the control flow of the caller are the same whether or not the
write succeeded. -/
def save_encodings {E : Type} (kf : Gallery E) (saveOk : Bool) : List (SaveEvent E) :=
  [⟨saveOk, kf⟩]

/-- `FaceRecognitionEngine.register_face`.  `locs` is the detection result,
`enc` the extracted encoding, `saveOk` whether the pickle write inside
`save_encodings` succeeds. -/
def register_face {E : Type} (eng : Engine E) (locs : List Loc) (enc : Option E)
    (u : String) (saveOk : Bool) :
    RegResult E × Engine E × List (SaveEvent E) :=
  if locs.length == 0 then
    (⟨false, RegOutcome.noFace, none⟩, eng, [])
  else if 1 < locs.length then
    (⟨false, RegOutcome.multipleFaces, none⟩, eng, [])
  else
    match enc with
    | none => (⟨false, RegOutcome.encodingFailed, none⟩, eng, [])
    | some e =>
      let kf2 := addEncoding eng.known_faces u e
      (⟨true, if hasUser eng.known_faces u then RegOutcome.addedScan
              else RegOutcome.registeredNew, some e⟩,
       { eng with known_faces := kf2 },
       save_encodings kf2 saveOk)

/-- The dict returned by `delete_user`. -/
structure DelResult where
  success : Bool
deriving DecidableEq, Repr

/-- `FaceRecognitionEngine.delete_user`: `del self.known_faces[user_name]`
followed by a save when the user exists (keys are unique, so removing every
entry with the key equals removing the single entry). -/
def delete_user {E : Type} (eng : Engine E) (u : String) (saveOk : Bool) :
    DelResult × Engine E × List (SaveEvent E) :=
  if hasUser eng.known_faces u then
    let kf2 := eng.known_faces.filter fun p => !(p.1 == u)
    (⟨true⟩, { eng with known_faces := kf2 }, save_encodings kf2 saveOk)
  else
    (⟨false⟩, eng, [])

/-- `FaceRecognitionEngine.get_registered_users`: the dict keys in order. -/
def get_registered_users {E : Type} (eng : Engine E) : List String :=
  eng.known_faces.map Prod.fst

/-- `FaceRecognitionEngine.get_user_encoding_count`. -/
def get_user_encoding_count {E : Type} (eng : Engine E) (u : String) : ℕ :=
  match eng.known_faces.find? (fun p => p.1 == u) with
  | some p => p.2.length
  | none => 0

/-- The gallery state after one successful enrollment with a clean save:
abbreviation for the engine component of `register_face`. -/
def enrollStep {E : Type} (eng : Engine E) (loc : Loc) (e : E) (u : String) : Engine E :=
  (register_face eng [loc] (some e) u true).2.1

/-! ### Attendance ledger (`db.py`) -/

/-- A calendar date; the code stores zero-padded `YYYY-MM-DD` strings whose
lexicographic order coincides with the lexicographic order on these triples. -/
structure Date where
  year : ℕ
  month : ℕ
  day : ℕ
deriving DecidableEq, Repr

/-- One row of the `attendance` table.  Punch times are seconds since
midnight (the code stores `HH:MM:SS` strings). -/
structure ARecord where
  rid : ℕ
  name : String
  date : Date
  punch_in : ℕ
  punch_out : Option ℕ
deriving DecidableEq, Repr

/-- The `attendance` table plus the autoincrement counter: every insert uses
`nextId` and bumps it, so row ids are unique and increasing. -/
structure DB where
  rows : List ARecord
  nextId : ℕ
deriving DecidableEq, Repr

/-- The `action` field of the dict returned by `mark_attendance`. -/
inductive MAction
  | punchIn
  | punchOut
  | noneAction
deriving DecidableEq, Repr

/-- The dict returned by `mark_attendance`. -/
structure MarkResult where
  success : Bool
  action : MAction
  timestamp : Option ℕ
deriving DecidableEq, Repr

/-- The `WHERE name = ? AND date = ?` filter. -/
def rowKey (u : String) (d : Date) (r : ARecord) : Bool :=
  decide (r.name = u ∧ r.date = d)

/-- Accumulator step realising `ORDER BY id DESC LIMIT 1`: keep the row with
the greatest id among those seen. -/
def pickLatest : Option ARecord → ARecord → Option ARecord
  | none, r => some r
  | some x, r => if x.rid < r.rid then some r else some x

/-- The `SELECT id, punch_out ... ORDER BY id DESC LIMIT 1` lookup. -/
def latestRow (db : DB) (u : String) (d : Date) : Option ARecord :=
  (db.rows.filter (rowKey u d)).foldl pickLatest none

/-- `AttendanceDB.mark_attendance` for user `u` at wall-clock time `now` on
calendar day `today`: insert a punch-in row, fill in the punch-out of the open
row, or refuse when the day is already complete. -/
def mark_attendance (db : DB) (today : Date) (now : ℕ) (u : String) :
    MarkResult × DB :=
  match latestRow db u today with
  | none =>
      (⟨true, MAction.punchIn, some now⟩,
       ⟨db.rows ++ [⟨db.nextId, u, today, now, none⟩], db.nextId + 1⟩)
  | some r =>
      match r.punch_out with
      | none =>
          (⟨true, MAction.punchOut, some now⟩,
           ⟨db.rows.map fun x =>
              if x.rid == r.rid then { x with punch_out := some now } else x,
            db.nextId⟩)
      | some t => (⟨false, MAction.noneAction, some t⟩, db)

/-- Lexicographic `≤` on dates, agreeing with string comparison of zero-padded
ISO dates. -/
def dateLeB (a b : Date) : Bool :=
  decide (a.year < b.year) ||
    (decide (a.year = b.year) &&
      (decide (a.month < b.month) ||
        (decide (a.month = b.month) && decide (a.day ≤ b.day))))

/-- Lexicographic `<` on dates. -/
def dateLtB (a b : Date) : Bool :=
  decide (a.year < b.year) ||
    (decide (a.year = b.year) &&
      (decide (a.month < b.month) ||
        (decide (a.month = b.month) && decide (a.day < b.day))))

/-- The exclusive end of the month range: `YYYY+1-01-01` for December, else
the first of the next month. -/
def monthEnd (y m : ℕ) : Date :=
  if m == 12 then ⟨y + 1, 1, 1⟩ else ⟨y, m + 1, 1⟩

/-- `AttendanceDB.get_monthly_attendance`: the rows with
`date >= YYYY-MM-01 AND date < monthEnd`.  (The claims verified here are
aggregates that do not depend on the `ORDER BY` of the result, so the
SQL ordering is not modelled.) -/
def get_monthly_attendance (db : DB) (y m : ℕ) : List ARecord :=
  db.rows.filter fun r => dateLeB ⟨y, m, 1⟩ r.date && dateLtB r.date (monthEnd y m)

/-- The `hours_worked` column:
`(julianday(punch_out) - julianday(punch_in)) * 24`, `NULL` when there is no
punch-out.  A time-only string is treated by SQLite as a time on a fixed
reference day, so the julianday difference is the difference in seconds
divided by 86400. -/
def hoursWorked (r : ARecord) : Option ℚ :=
  match r.punch_out with
  | some t => some (((t : ℚ) - (r.punch_in : ℚ)) / 86400 * 24)
  | none => none

/-- `user_df['hours_worked'].sum()`: pandas skips the `NaN` entries coming
from `NULL` punch-outs, so an incomplete row contributes `0`. -/
def sumHours (l : List ARecord) : ℚ :=
  l.foldr (fun r acc => (hoursWorked r).getD 0 + acc) 0

/-- The dict returned by `get_user_attendance_summary`.  Counts are integers
as in Python; `incomplete_days` is computed by subtraction. -/
structure Summary where
  total_days_present : ℤ
  total_hours : ℚ
  days_with_punch_out : ℤ
  incomplete_days : ℤ
deriving DecidableEq, Repr

/-- `AttendanceDB.get_user_attendance_summary`.  The final
`float(total_hours) if total_hours else 0.0` maps `0.0` to `0.0` and any
other sum to itself, so it is the identity on the modelled value. -/
def get_user_attendance_summary (db : DB) (u : String) (y m : ℕ) : Summary :=
  let df := get_monthly_attendance db y m
  if df.isEmpty then ⟨0, 0, 0, 0⟩
  else
    let userDf := df.filter fun r => r.name == u
    if userDf.isEmpty then ⟨0, 0, 0, 0⟩
    else
      let total : ℤ := userDf.length
      let dout : ℤ := (userDf.filter fun r => r.punch_out.isSome).length
      ⟨total, sumHours userDf, dout, total - dout⟩

/-! ### Liveness detector (`spoof.py`) -/

/-- A grayscale frame as a flat list of pixel intensities (the `cv2.cvtColor`
grayscale conversion is an external capability; frames enter the detector
already converted). -/
abbrev Frame := List ℕ

/-- The `LivenessDetector` state: configuration plus the rolling frame and
EAR histories and the sticky blink flag. -/
structure LD where
  blink_threshold : ℚ
  frame_variation_threshold : ℕ
  ear_history_len : ℕ
  max_history : ℕ
  frame_history : List Frame
  ear_history : List ℚ
  blink_detected : Bool
deriving DecidableEq, Repr

/-- A freshly constructed `LivenessDetector()` with the default parameters
`blink_threshold=0.25`, `frame_variation_threshold=500`, `ear_history_len=10`,
`max_history=5`. -/
def LD.init : LD :=
  ⟨1/4, 500, 10, 5, [], [], false⟩

/-- Append to a rolling window and `pop(0)` when the capacity is exceeded. -/
def pushTrim {α : Type} (l : List α) (x : α) (cap : ℕ) : List α :=
  let l1 := l ++ [x]
  if cap < l1.length then l1.drop 1 else l1

/-- The blink condition checked on the EAR window after the push: window full,
some sample strictly below the threshold, most recent sample strictly above. -/
def blinkCond (thresh : ℚ) (cap : ℕ) (h : List ℚ) : Bool :=
  decide (h.length = cap) && h.any (fun x => decide (x < thresh)) &&
    (match h.getLast? with
     | some x => decide (thresh < x)
     | none => false)

/-- `LivenessDetector.detect_blink_presence`: `ear` is the averaged
eye-aspect-ratio the landmark capability extracted from the frame (`none`
when no face landmarks were found, in which case the state is untouched and
`has_blink` is reported as `False`).  Returns the new state and the reported
`has_blink` field. -/
def detect_blink_presence (d : LD) (ear : Option ℚ) : LD × Bool :=
  match ear with
  | none => (d, false)
  | some e =>
      let h := pushTrim d.ear_history e d.ear_history_len
      let b := d.blink_detected || blinkCond d.blink_threshold d.ear_history_len h
      ({ d with ear_history := h, blink_detected := b }, b)

/-- `cv2.absdiff` followed by `np.sum`: the sum of absolute pixel
differences of two frames. -/
def absdiffSum (a b : Frame) : ℕ :=
  (List.zipWith Nat.dist a b).sum

/-- `LivenessDetector.detect_frame_variation`: push the frame into the rolling
history; with fewer than two frames report live optimistically, otherwise
compare the two most recent frames against the variation threshold.  Returns
the new state, the `is_live` field and the `variation_score`. -/
def detect_frame_variation (d : LD) (f : Frame) : LD × Bool × ℕ :=
  let h := pushTrim d.frame_history f d.max_history
  let d1 := { d with frame_history := h }
  if h.length < 2 then (d1, true, 0)
  else
    let f1 := h.getD (h.length - 2) []
    let f2 := h.getD (h.length - 1) []
    let score := absdiffSum f1 f2
    (d1, decide (d.frame_variation_threshold < score), score)

/-- One frame of input to `check_liveness`: the frame itself and the optional
EAR sample the landmark capability extracts from it. -/
structure LInput where
  frame : Frame
  ear : Option ℚ
deriving DecidableEq, Repr

/-- `LivenessDetector.check_liveness`: frame variation first, then blink
detection, verdict is the conjunction of the variation signal and the
reported blink flag. -/
def check_liveness (d : LD) (inp : LInput) : LD × Bool :=
  let v := detect_frame_variation d inp.frame
  let b := detect_blink_presence v.1 inp.ear
  (b.1, v.2.1 && b.2)

/-- Feed a sequence of frames through `check_liveness`, collecting the
per-frame `is_live` verdicts and the final state. -/
def runLiveness (d : LD) : List LInput → List Bool × LD
  | [] => ([], d)
  | i :: is =>
      let s := check_liveness d i
      let rest := runLiveness s.1 is
      (s.2 :: rest.1, rest.2)

/-- `LivenessDetector.reset`. -/
def LD.reset (d : LD) : LD :=
  { d with frame_history := [], ear_history := [], blink_detected := false }

/-! ### Concrete instances used by witnesses -/

/-- One-dimensional embeddings with their Euclidean distance (used to realise
the concrete scenario of the spec exactly, with rational distances). -/
def distQ : ℚ → ℚ → ℚ := fun a b => |a - b|

/-- The gallery of the spec scenario: alice with a single embedding, default
tolerance `0.6`. -/
def engAlice : Engine ℚ := ⟨6/10, [("alice", [0])]⟩

/-- A detector state about to observe a blink: nine samples recorded, one of
them below the threshold, default configuration. -/
def ldBlinkW : LD :=
  { LD.init with
      ear_history := [3/10, 3/10, 3/10, 3/10, 1/10, 3/10, 3/10, 3/10, 3/10] }

/-! ## Helper lemmas -/

theorem map_eq_self_of {α : Type} (f : α → α) (l : List α)
    (h : ∀ a ∈ l, f a = a) : l.map f = l := by
  induction l with
  | nil => rfl
  | cons a t ih =>
      simp only [List.map_cons, h a (by simp)]
      rw [ih fun x hx => h x (by simp [hx])]

theorem find?_append_none {α : Type} (p : α → Bool) (l1 l2 : List α)
    (h : l1.find? p = none) : (l1 ++ l2).find? p = l2.find? p := by
  induction l1 with
  | nil => simp
  | cons a l ih =>
      cases hpa : p a with
      | true => simp [List.find?_cons, hpa] at h
      | false =>
          simp only [List.find?_cons, hpa] at h ⊢
          rw [List.cons_append, List.find?_cons, hpa]
          exact ih h

theorem argminIdx_lt_length : ∀ (l : List ℚ), l ≠ [] → argminIdx l < l.length
  | [_], _ => by simp [argminIdx]
  | x :: y :: ys, _ => by
      rw [argminIdx]
      split
      · simp
      · have ih := argminIdx_lt_length (y :: ys) (by simp)
        simpa using Nat.succ_lt_succ ih

theorem argmin_getD_mem : ∀ (l : List ℚ), l ≠ [] → l.getD (argminIdx l) 0 ∈ l
  | [_], _ => by simp [argminIdx]
  | x :: y :: ys, _ => by
      rw [argminIdx]
      split
      · simp
      · have ih := argmin_getD_mem (y :: ys) (by simp)
        simpa only [List.getD_cons_succ] using List.mem_cons_of_mem x ih

theorem argmin_getD_le : ∀ (l : List ℚ), ∀ x ∈ l, l.getD (argminIdx l) 0 ≤ x
  | [] => by simp
  | [_] => by simp [argminIdx]
  | x :: y :: ys => by
      intro z hz
      have ih := argmin_getD_le (y :: ys)
      rw [argminIdx]
      split
      · rename_i hle
        rcases List.mem_cons.mp hz with h | h
        · simp [h]
        · exact le_trans (by simpa using hle) (ih z h)
      · rename_i hgt
        rcases List.mem_cons.mp hz with h | h
        · subst h
          simpa only [List.getD_cons_succ] using le_of_lt (lt_of_not_le hgt)
        · simpa only [List.getD_cons_succ] using ih z h

/-- The index selected by `np.argmin` names an identity one of whose stored
embeddings attains the best distance. -/
theorem bestName_attains {E : Type} (eng : Engine E) (distFn : E → E → ℚ) (probe : E)
    (hne : flatPairs eng.known_faces ≠ []) :
    ∃ pr ∈ flatPairs eng.known_faces, pr.1 = bestName eng distFn probe ∧
      distFn pr.2 probe = bestDist eng distFn probe := by
  set ps := flatPairs eng.known_faces with hps
  have hlen : (recDistances eng distFn probe).length = ps.length := by
    simp [recDistances]
  have hdl : recDistances eng distFn probe ≠ [] := by
    intro h
    exact hne (List.map_eq_nil_iff.mp h)
  have hidx : argminIdx (recDistances eng distFn probe) < ps.length :=
    hlen ▸ argminIdx_lt_length _ hdl
  refine ⟨ps[argminIdx (recDistances eng distFn probe)], List.getElem_mem hidx, ?_, ?_⟩
  · rw [bestName, List.getD_eq_getElem _ _ (by simpa using hidx)]
    exact (List.getElem_map Prod.fst).symm
  · rw [bestDist, List.getD_eq_getElem _ _ (hlen ▸ hidx)]
    simp only [recDistances, ← hps]
    simp [List.getElem_map]

/-! ## Claims -/

/-- Claim C5: `recognize_face` on an empty gallery (no enrolled identities),
for a probe image with exactly one detected face, always returns the distinct
no-registered-users outcome and never the below-threshold outcome; the result
does not depend on the encoding step (the empty-gallery branch is taken before
any encoding or distance is computed, so the conclusion holds for every value
of `enc`, including `none`). -/
theorem recognize_empty_gallery {E : Type} (tol : ℚ) (distFn : E → E → ℚ)
    (loc : Loc) (enc : Option E) :
    (recognize_face ⟨tol, []⟩ distFn [loc] enc).1.outcome = ROutcome.emptyGallery ∧
    (recognize_face ⟨tol, []⟩ distFn [loc] enc).1.outcome ≠ ROutcome.belowThreshold := by
  constructor <;> simp [recognize_face]

/-- Claim C1: for a non-empty gallery and a probe image with exactly one
detected face, `recognize_face` accepts iff the minimum distance over all
stored embeddings is strictly below the tolerance (first conjunct: the
compared value is that minimum); on acceptance it returns the identity owning
a minimal-distance embedding with confidence
`max 0 (1 - distance / tolerance)`; on rejection it returns the
below-threshold failure with no name.  Acceptance is decided on the raw
distance alone: the iff mentions only the distance and the tolerance. -/
theorem recognize_accept_iff {E : Type} (eng : Engine E) (distFn : E → E → ℚ)
    (loc : Loc) (probe : E)
    (htol : 0 < eng.tolerance)
    (hne : flatPairs eng.known_faces ≠ []) :
    (bestDist eng distFn probe ∈ recDistances eng distFn probe ∧
      ∀ x ∈ recDistances eng distFn probe, bestDist eng distFn probe ≤ x) ∧
    ((recognize_face eng distFn [loc] (some probe)).1.success = true ↔
      bestDist eng distFn probe < eng.tolerance) ∧
    (bestDist eng distFn probe < eng.tolerance →
      (recognize_face eng distFn [loc] (some probe)).1.name =
        some (bestName eng distFn probe) ∧
      (∃ pr ∈ flatPairs eng.known_faces, pr.1 = bestName eng distFn probe ∧
        distFn pr.2 probe = bestDist eng distFn probe) ∧
      (recognize_face eng distFn [loc] (some probe)).1.confidence =
        max 0 (1 - bestDist eng distFn probe / eng.tolerance) ∧
      (recognize_face eng distFn [loc] (some probe)).1.outcome = ROutcome.matched) ∧
    (eng.tolerance ≤ bestDist eng distFn probe →
      (recognize_face eng distFn [loc] (some probe)).1.success = false ∧
      (recognize_face eng distFn [loc] (some probe)).1.name = none ∧
      (recognize_face eng distFn [loc] (some probe)).1.outcome =
        ROutcome.belowThreshold) := by
  have hdl : recDistances eng distFn probe ≠ [] := fun h =>
    hne (List.map_eq_nil_iff.mp h)
  have hkf : eng.known_faces.isEmpty = false := by
    cases h : eng.known_faces with
    | nil => exact absurd (by simp [flatPairs, h]) hne
    | cons a l => rfl
  have hlen0 : (recDistances eng distFn probe).length ≠ 0 := fun h =>
    hdl (List.length_eq_zero.mp h)
  have hlenb : ((recDistances eng distFn probe).length == 0) = false := by
    simpa using hlen0
  have hmin : bestDist eng distFn probe ∈ recDistances eng distFn probe ∧
      ∀ x ∈ recDistances eng distFn probe, bestDist eng distFn probe ≤ x :=
    ⟨argmin_getD_mem _ hdl, argmin_getD_le _⟩
  by_cases hb : bestDist eng distFn probe < eng.tolerance
  · have hacc : recognize_face eng distFn [loc] (some probe) =
        (⟨true, some (bestName eng distFn probe),
          1 - bestDist eng distFn probe / eng.tolerance, ROutcome.matched,
          recDistances eng distFn probe⟩, eng, []) := by
      simp [recognize_face, hkf, hlenb, hb]
    have hconf : (1 : ℚ) - bestDist eng distFn probe / eng.tolerance =
        max 0 (1 - bestDist eng distFn probe / eng.tolerance) := by
      have h1 : bestDist eng distFn probe / eng.tolerance < 1 :=
        (div_lt_one htol).mpr hb
      have h0 : (0 : ℚ) ≤ 1 - bestDist eng distFn probe / eng.tolerance := by
        linarith
      exact (max_eq_right h0).symm
    refine ⟨hmin, ?_, ?_, ?_⟩
    · rw [hacc]
      simpa using hb
    · intro _
      exact ⟨by rw [hacc], bestName_attains eng distFn probe hne,
        by rw [hacc]; exact hconf, by rw [hacc]⟩
    · intro hge
      exact absurd hb (not_lt_of_ge hge)
  · have hrej : recognize_face eng distFn [loc] (some probe) =
        (⟨false, none, 0, ROutcome.belowThreshold,
          recDistances eng distFn probe⟩, eng, []) := by
      simp [recognize_face, hkf, hlenb, hb]
    refine ⟨hmin, ?_, ?_, ?_⟩
    · rw [hrej]
      simpa using hb
    · intro hlt
      exact absurd hlt hb
    · intro _
      exact ⟨by rw [hrej], by rw [hrej], by rw [hrej]⟩

/-- Witness for C1, realising the scenario of the spec: gallery with alice
and a single embedding, tolerance `0.6`, probe at distance `0.3`:
`recognize_face` returns matched with identity alice and confidence `0.5`. -/
theorem recognize_accept_iff_witness :
    (0 : ℚ) < engAlice.tolerance ∧
    flatPairs engAlice.known_faces ≠ [] ∧
    (recognize_face engAlice distQ [(0, 0, 0, 0)] (some (3/10))).1.success = true ∧
    (recognize_face engAlice distQ [(0, 0, 0, 0)] (some (3/10))).1.name = some "alice" ∧
    (recognize_face engAlice distQ [(0, 0, 0, 0)] (some (3/10))).1.confidence = 1/2 := by
  have h := recognize_accept_iff engAlice distQ (0, 0, 0, 0) (3/10)
    (by norm_num [engAlice]) (by simp [engAlice, flatPairs])
  have hdq : distQ 0 (3/10) = 3/10 := by
    rw [distQ, zero_sub, abs_neg]
    exact abs_of_nonneg (by norm_num)
  have hbd : bestDist engAlice distQ (3/10) = 3/10 := by
    simp [bestDist, recDistances, flatPairs, engAlice, argminIdx, hdq]
  have hb : bestDist engAlice distQ (3/10) < engAlice.tolerance := by
    rw [hbd]
    norm_num [engAlice]
  obtain ⟨-, hiff, hpos, -⟩ := h
  obtain ⟨hname, -, hconf, -⟩ := hpos hb
  refine ⟨by norm_num [engAlice], by simp [engAlice, flatPairs],
    hiff.mpr hb, ?_, ?_⟩
  · rw [hname]
    simp [bestName, recDistances, flatPairs, engAlice, argminIdx]
  · rw [hconf, hbd]
    show max 0 (1 - (3/10 : ℚ) / engAlice.tolerance) = 1/2
    rw [max_eq_right (by norm_num [engAlice])]
    norm_num [engAlice]

/-- Claim C10: `recognize_face` never mutates the gallery and never writes to
persistent storage, whichever outcome branch it takes: the returned engine is
the input engine and the persistence-event log is empty, for every detection
result and encoding. -/
theorem recognize_preserves_state {E : Type} (eng : Engine E) (distFn : E → E → ℚ)
    (locs : List Loc) (enc : Option E) :
    (recognize_face eng distFn locs enc).2.1 = eng ∧
    (recognize_face eng distFn locs enc).2.2 = [] := by
  unfold recognize_face
  split
  · exact ⟨rfl, rfl⟩
  · split
    · exact ⟨rfl, rfl⟩
    · split
      · exact ⟨rfl, rfl⟩
      · cases enc with
        | none => exact ⟨rfl, rfl⟩
        | some probe =>
          simp only
          split
          · exact ⟨rfl, rfl⟩
          · split
            · exact ⟨rfl, rfl⟩
            · exact ⟨rfl, rfl⟩

/-- Counterexample to claim C6 as stated: a concrete enrollment whose save
fails (`saveOk = false`) still reports `success = true` in the structured
result, and the in-memory gallery is mutated (the claim asserts a structured
error and an unchanged gallery). -/
theorem register_save_fail_cex :
    (register_face (⟨6/10, []⟩ : Engine ℚ) [(0, 0, 0, 0)] (some 1) "alice" false).1.success
      = true ∧
    (register_face (⟨6/10, []⟩ : Engine ℚ) [(0, 0, 0, 0)] (some 1) "alice" false).2.1.known_faces
      ≠ (⟨6/10, []⟩ : Engine ℚ).known_faces := by
  constructor
  · simp [register_face]
  · simp [register_face, addEncoding, hasUser]

/-- Claim C6, amended: when the persistence step of an enrollment fails, the
failure is surfaced only as a UI error inside `save_encodings`; `register_face`
still returns `success = true` and the in-memory gallery keeps the appended
encoding (no rollback), with the failed write recorded in the event log. -/
theorem register_save_fail_behavior {E : Type} (eng : Engine E) (loc : Loc)
    (e : E) (u : String) :
    (register_face eng [loc] (some e) u false).1.success = true ∧
    (register_face eng [loc] (some e) u false).2.1.known_faces =
      addEncoding eng.known_faces u e ∧
    (register_face eng [loc] (some e) u false).2.2 =
      [⟨false, addEncoding eng.known_faces u e⟩] := by
  refine ⟨?_, ?_, ?_⟩ <;> simp [register_face, save_encodings]

/-- Claim C7: starting from a gallery not containing `u`, enrolling `u` once
creates the identity with one embedding, enrolling a second time appends
(count becomes 2, no deduplication), and deleting `u` removes the identity and
all its embeddings (count 0, absent from the listing), restoring the original
gallery. -/
theorem enroll_twice_then_delete {E : Type} (eng : Engine E) (u : String)
    (loc : Loc) (e1 e2 : E)
    (hu : ∀ p ∈ eng.known_faces, p.1 ≠ u) :
    (register_face eng [loc] (some e1) u true).1.success = true ∧
    get_user_encoding_count (enrollStep eng loc e1 u) u = 1 ∧
    (register_face (enrollStep eng loc e1 u) [loc] (some e2) u true).1.success = true ∧
    get_user_encoding_count (enrollStep (enrollStep eng loc e1 u) loc e2 u) u = 2 ∧
    (delete_user (enrollStep (enrollStep eng loc e1 u) loc e2 u) u true).1.success = true ∧
    get_user_encoding_count
      (delete_user (enrollStep (enrollStep eng loc e1 u) loc e2 u) u true).2.1 u = 0 ∧
    u ∉ get_registered_users
      (delete_user (enrollStep (enrollStep eng loc e1 u) loc e2 u) u true).2.1 ∧
    (delete_user (enrollStep (enrollStep eng loc e1 u) loc e2 u) u true).2.1.known_faces =
      eng.known_faces := by
  have hfalse : hasUser eng.known_faces u = false := by
    rw [hasUser, List.any_eq_false]
    intro p hp
    simpa using hu p hp
  have hfind : eng.known_faces.find? (fun p => p.1 == u) = none :=
    List.find?_eq_none.mpr fun p hp => by simpa using hu p hp
  have hstep : ∀ (g : Engine E) (e : E),
      (enrollStep g loc e u).known_faces = addEncoding g.known_faces u e := by
    intro g e
    simp [enrollStep, register_face]
  have hg1 : (enrollStep eng loc e1 u).known_faces =
      eng.known_faces ++ [(u, [e1])] := by
    rw [hstep]
    simp [addEncoding, hfalse]
  have htrue : hasUser (eng.known_faces ++ [(u, [e1])]) u = true := by
    rw [hasUser, List.any_eq_true]
    exact ⟨(u, [e1]), by simp, by simp⟩
  have hg2 : (enrollStep (enrollStep eng loc e1 u) loc e2 u).known_faces =
      eng.known_faces ++ [(u, [e1, e2])] := by
    rw [hstep, hg1]
    simp only [addEncoding, htrue, if_true]
    rw [List.map_append]
    rw [map_eq_self_of _ _ fun p hp => by simp [beq_eq_false_iff_ne.mpr (hu p hp)]]
    simp
  have hcount1 : get_user_encoding_count (enrollStep eng loc e1 u) u = 1 := by
    rw [get_user_encoding_count, hg1, find?_append_none _ _ _ hfind]
    simp [List.find?_cons]
  have hcount2 :
      get_user_encoding_count (enrollStep (enrollStep eng loc e1 u) loc e2 u) u = 2 := by
    rw [get_user_encoding_count, hg2, find?_append_none _ _ _ hfind]
    simp [List.find?_cons]
  have htrue2 : hasUser (enrollStep (enrollStep eng loc e1 u) loc e2 u).known_faces u
      = true := by
    rw [hg2, hasUser, List.any_eq_true]
    exact ⟨(u, [e1, e2]), by simp, by simp⟩
  have hg3 : (delete_user (enrollStep (enrollStep eng loc e1 u) loc e2 u) u true).2.1.known_faces
      = eng.known_faces := by
    simp only [delete_user, htrue2, if_pos]
    rw [hg2, List.filter_append]
    rw [List.filter_eq_self.mpr fun p hp => by
      simp [beq_eq_false_iff_ne.mpr (hu p hp)]]
    simp
  refine ⟨by simp [register_face], hcount1, by simp [register_face], hcount2,
    by simp [delete_user, htrue2], ?_, ?_, hg3⟩
  · rw [get_user_encoding_count, hg3, hfind]
  · rw [get_registered_users, hg3]
    intro hmem
    rcases List.mem_map.mp hmem with ⟨p, hp, hp1⟩
    exact hu p hp hp1

/-- Witness for C7 at a concrete input: empty starting gallery, two
enrollments of bob, then deletion. -/
theorem enroll_twice_then_delete_witness :
    (∀ p ∈ (⟨6/10, []⟩ : Engine ℚ).known_faces, p.1 ≠ "bob") ∧
    (get_user_encoding_count (enrollStep (⟨6/10, []⟩ : Engine ℚ) (0, 0, 0, 0) 1 "bob") "bob" = 1 ∧
     get_user_encoding_count
       (enrollStep (enrollStep (⟨6/10, []⟩ : Engine ℚ) (0, 0, 0, 0) 1 "bob") (0, 0, 0, 0) 2 "bob")
       "bob" = 2 ∧
     get_user_encoding_count
       (delete_user
         (enrollStep (enrollStep (⟨6/10, []⟩ : Engine ℚ) (0, 0, 0, 0) 1 "bob") (0, 0, 0, 0) 2 "bob")
         "bob" true).2.1 "bob" = 0 ∧
     "bob" ∉ get_registered_users
       (delete_user
         (enrollStep (enrollStep (⟨6/10, []⟩ : Engine ℚ) (0, 0, 0, 0) 1 "bob") (0, 0, 0, 0) 2 "bob")
         "bob" true).2.1) := by
  have h := enroll_twice_then_delete (⟨6/10, []⟩ : Engine ℚ) "bob" (0, 0, 0, 0)
    (1 : ℚ) (2 : ℚ) (by simp)
  exact ⟨by simp, h.2.1, h.2.2.2.1, h.2.2.2.2.2.1, h.2.2.2.2.2.2.1⟩

/-- Claim C2: starting from a database with no record for `(u, d)` (row ids
below the autoincrement counter, as every reachable database has), the first
`mark_attendance` of the day inserts a punch-in row at `t1` and reports
punch-in; the second fills that row with punch-out `t2` and reports
punch-out; the third is refused, carries the existing punch-out time `t2`,
and leaves the database exactly unchanged. -/
theorem mark_attendance_day_cycle (db : DB) (u : String) (d : Date)
    (t1 t2 t3 : ℕ)
    (hfree : ∀ r ∈ db.rows, ¬(r.name = u ∧ r.date = d))
    (hid : ∀ r ∈ db.rows, r.rid < db.nextId) :
    (mark_attendance db d t1 u).1 = ⟨true, MAction.punchIn, some t1⟩ ∧
    (mark_attendance db d t1 u).2.rows =
      db.rows ++ [⟨db.nextId, u, d, t1, none⟩] ∧
    (mark_attendance (mark_attendance db d t1 u).2 d t2 u).1 =
      ⟨true, MAction.punchOut, some t2⟩ ∧
    (mark_attendance (mark_attendance db d t1 u).2 d t2 u).2.rows =
      db.rows ++ [⟨db.nextId, u, d, t1, some t2⟩] ∧
    (mark_attendance (mark_attendance (mark_attendance db d t1 u).2 d t2 u).2 d t3 u).1 =
      ⟨false, MAction.noneAction, some t2⟩ ∧
    (mark_attendance (mark_attendance (mark_attendance db d t1 u).2 d t2 u).2 d t3 u).2 =
      (mark_attendance (mark_attendance db d t1 u).2 d t2 u).2 := by
  have hfil0 : db.rows.filter (rowKey u d) = [] :=
    List.filter_eq_nil_iff.mpr fun r hr => by
      simpa [rowKey] using hfree r hr
  have hlat0 : latestRow db u d = none := by
    rw [latestRow, hfil0]
    rfl
  have hm1 : mark_attendance db d t1 u =
      (⟨true, MAction.punchIn, some t1⟩,
       ⟨db.rows ++ [⟨db.nextId, u, d, t1, none⟩], db.nextId + 1⟩) := by
    simp only [mark_attendance, hlat0]
  have hfil1 : ∀ po : Option ℕ,
      (db.rows ++ [(⟨db.nextId, u, d, t1, po⟩ : ARecord)]).filter (rowKey u d) =
        [(⟨db.nextId, u, d, t1, po⟩ : ARecord)] := by
    intro po
    rw [List.filter_append, hfil0]
    simp [rowKey]
  have hlat1 : latestRow ⟨db.rows ++ [(⟨db.nextId, u, d, t1, none⟩ : ARecord)],
      db.nextId + 1⟩ u d = some ⟨db.nextId, u, d, t1, none⟩ := by
    rw [latestRow]
    dsimp only
    rw [hfil1]
    rfl
  have hmap : (db.rows ++ [(⟨db.nextId, u, d, t1, none⟩ : ARecord)]).map
      (fun x => if x.rid == db.nextId then
        { x with punch_out := some t2 } else x) =
      db.rows ++ [(⟨db.nextId, u, d, t1, some t2⟩ : ARecord)] := by
    rw [List.map_append]
    rw [map_eq_self_of _ _ fun x hx => by
      simp [Nat.ne_of_lt (hid x hx)]]
    simp
  have hm2 : mark_attendance ⟨db.rows ++ [(⟨db.nextId, u, d, t1, none⟩ : ARecord)],
      db.nextId + 1⟩ d t2 u =
      (⟨true, MAction.punchOut, some t2⟩,
       ⟨db.rows ++ [(⟨db.nextId, u, d, t1, some t2⟩ : ARecord)], db.nextId + 1⟩) := by
    simp only [mark_attendance, hlat1]
    dsimp only
    rw [hmap]
  have hlat2 : latestRow ⟨db.rows ++ [(⟨db.nextId, u, d, t1, some t2⟩ : ARecord)],
      db.nextId + 1⟩ u d = some ⟨db.nextId, u, d, t1, some t2⟩ := by
    rw [latestRow]
    dsimp only
    rw [hfil1]
    rfl
  have hm3 : mark_attendance ⟨db.rows ++ [(⟨db.nextId, u, d, t1, some t2⟩ : ARecord)],
      db.nextId + 1⟩ d t3 u =
      (⟨false, MAction.noneAction, some t2⟩,
       ⟨db.rows ++ [(⟨db.nextId, u, d, t1, some t2⟩ : ARecord)], db.nextId + 1⟩) := by
    simp only [mark_attendance, hlat2]
  rw [hm1]
  dsimp only
  rw [hm2]
  dsimp only
  rw [hm3]
  exact ⟨rfl, rfl, rfl, rfl, rfl, rfl⟩

/-- Witness for C2 at a concrete input: empty database, three recognitions of
carol on the same day. -/
theorem mark_attendance_day_cycle_witness :
    (mark_attendance ⟨[], 0⟩ ⟨2024, 5, 6⟩ 100 "carol").1 =
      ⟨true, MAction.punchIn, some 100⟩ ∧
    (mark_attendance (mark_attendance ⟨[], 0⟩ ⟨2024, 5, 6⟩ 100 "carol").2
        ⟨2024, 5, 6⟩ 200 "carol").1 = ⟨true, MAction.punchOut, some 200⟩ ∧
    (mark_attendance (mark_attendance (mark_attendance ⟨[], 0⟩ ⟨2024, 5, 6⟩ 100 "carol").2
        ⟨2024, 5, 6⟩ 200 "carol").2 ⟨2024, 5, 6⟩ 300 "carol").1 =
      ⟨false, MAction.noneAction, some 200⟩ ∧
    (mark_attendance (mark_attendance (mark_attendance ⟨[], 0⟩ ⟨2024, 5, 6⟩ 100 "carol").2
        ⟨2024, 5, 6⟩ 200 "carol").2 ⟨2024, 5, 6⟩ 300 "carol").2 =
      (mark_attendance (mark_attendance ⟨[], 0⟩ ⟨2024, 5, 6⟩ 100 "carol").2
        ⟨2024, 5, 6⟩ 200 "carol").2 := by
  have h := mark_attendance_day_cycle ⟨[], 0⟩ "carol" ⟨2024, 5, 6⟩ 100 200 300
    (by simp) (by simp)
  exact ⟨h.1, h.2.2.1, h.2.2.2.2.1, h.2.2.2.2.2⟩

/-- Claim C9: the user summary always satisfies
`total_days_present = days_with_punch_out + incomplete_days` with all three
counts non-negative, including the empty branches where all are zero. -/
theorem summary_counts_invariant (db : DB) (u : String) (y m : ℕ) :
    (get_user_attendance_summary db u y m).total_days_present =
      (get_user_attendance_summary db u y m).days_with_punch_out +
        (get_user_attendance_summary db u y m).incomplete_days ∧
    0 ≤ (get_user_attendance_summary db u y m).total_days_present ∧
    0 ≤ (get_user_attendance_summary db u y m).days_with_punch_out ∧
    0 ≤ (get_user_attendance_summary db u y m).incomplete_days := by
  simp only [get_user_attendance_summary]
  split
  · exact ⟨rfl, le_refl 0, le_refl 0, le_refl 0⟩
  · split
    · exact ⟨rfl, le_refl 0, le_refl 0, le_refl 0⟩
    · refine ⟨by ring, Int.natCast_nonneg _, Int.natCast_nonneg _, ?_⟩
      rw [sub_nonneg]
      exact_mod_cast List.length_filter_le _ _

theorem sumHours_cons (r : ARecord) (l : List ARecord) :
    sumHours (r :: l) = (hoursWorked r).getD 0 + sumHours l := rfl

theorem sumHours_append (l1 l2 : List ARecord) :
    sumHours (l1 ++ l2) = sumHours l1 + sumHours l2 := by
  induction l1 with
  | nil => simp [sumHours]
  | cons a t ih =>
      rw [List.cons_append, sumHours_cons, sumHours_cons, ih, add_assoc]

/-- In every branch of the summary, `total_hours` is the pandas sum (with
`NaN` skipped) over the user rows of the month. -/
theorem summary_total_hours_eq (db : DB) (u : String) (y m : ℕ) :
    (get_user_attendance_summary db u y m).total_hours =
      sumHours ((get_monthly_attendance db y m).filter fun r => r.name == u) := by
  simp only [get_user_attendance_summary]
  split
  · rename_i h1
    rw [List.isEmpty_iff.mp h1]
    rfl
  · split
    · rename_i h2
      rw [List.isEmpty_iff.mp h2]
      rfl
    · rfl

/-- Deleting a middle record that contributes zero hours from a twice-filtered
row list does not change the hour sum. -/
theorem sumHours_filter_middle (p q : ARecord → Bool) (l1 l2 : List ARecord)
    (r0 : ARecord) (h0 : (hoursWorked r0).getD 0 = 0) :
    sumHours (((l1 ++ r0 :: l2).filter p).filter q) =
      sumHours (((l1 ++ l2).filter p).filter q) := by
  have hL : ((l1 ++ r0 :: l2).filter p).filter q =
      (l1.filter p).filter q ++ ((r0 :: l2).filter p).filter q := by
    rw [List.filter_append, List.filter_append]
  have hR : ((l1 ++ l2).filter p).filter q =
      (l1.filter p).filter q ++ (l2.filter p).filter q := by
    rw [List.filter_append, List.filter_append]
  rw [hL, hR, sumHours_append, sumHours_append]
  congr 1
  rw [List.filter_cons]
  split
  · rw [List.filter_cons]
    split
    · rw [sumHours_cons, h0, zero_add]
    · rfl
  · rfl

/-- Claim C8: for a record with both punches, `hours_worked` is exactly the
punch difference in fractional hours; and a record without punch-out
contributes exactly `0` to the monthly `total_hours` of its user (removing it
does not change the total). -/
theorem hours_fractional_and_incomplete_zero (r : ARecord) (tOut : ℕ)
    (h : r.punch_out = some tOut)
    (l1 l2 : List ARecord) (n1 n2 : ℕ) (u : String) (y m : ℕ)
    (r0 : ARecord) (h0 : r0.punch_out = none) :
    hoursWorked r = some (((tOut : ℚ) - (r.punch_in : ℚ)) / 3600) ∧
    (get_user_attendance_summary ⟨l1 ++ r0 :: l2, n1⟩ u y m).total_hours =
      (get_user_attendance_summary ⟨l1 ++ l2, n2⟩ u y m).total_hours := by
  constructor
  · rw [hoursWorked, h]
    simp only [Option.some.injEq]
    ring
  · rw [summary_total_hours_eq, summary_total_hours_eq]
    simp only [get_monthly_attendance]
    exact sumHours_filter_middle _ _ l1 l2 r0 (by simp [hoursWorked, h0])

/-- Witness for C8 at a concrete input: punch-in `09:00:00` (32400 s),
punch-out `17:30:00` (63000 s) gives exactly `8.5` hours, and a punch-out-free
row adds nothing to the monthly total. -/
theorem hours_fractional_witness :
    hoursWorked ⟨0, "dave", ⟨2024, 1, 2⟩, 32400, some 63000⟩ = some (17/2) ∧
    (get_user_attendance_summary ⟨[⟨1, "dave", ⟨2024, 1, 3⟩, 100, none⟩], 0⟩
        "dave" 2024 1).total_hours =
      (get_user_attendance_summary ⟨[], 0⟩ "dave" 2024 1).total_hours := by
  have h := hours_fractional_and_incomplete_zero
    ⟨0, "dave", ⟨2024, 1, 2⟩, 32400, some 63000⟩ 63000 rfl
    [] [] 0 0 "dave" 2024 1 ⟨1, "dave", ⟨2024, 1, 3⟩, 100, none⟩ rfl
  refine ⟨?_, h.2⟩
  rw [h.1]
  norm_num

theorem variation_state (d : LD) (f : Frame) :
    (detect_frame_variation d f).1 =
      { d with frame_history := pushTrim d.frame_history f d.max_history } := by
  simp only [detect_frame_variation]
  split <;> rfl

theorem blink_state_fields (d : LD) (e : Option ℚ) :
    (detect_blink_presence d e).1.frame_history = d.frame_history ∧
    (detect_blink_presence d e).1.max_history = d.max_history ∧
    (detect_blink_presence d e).1.ear_history_len = d.ear_history_len := by
  cases e <;> simp [detect_blink_presence]

theorem blinkCond_of_len_ne (thresh : ℚ) (cap : ℕ) (h : List ℚ)
    (hne : h.length ≠ cap) : blinkCond thresh cap h = false := by
  simp [blinkCond, hne]

theorem pushTrim_length_le {α : Type} (l : List α) (x : α) (cap : ℕ) :
    (pushTrim l x cap).length ≤ l.length + 1 := by
  simp only [pushTrim]
  split
  · simp [List.length_drop]
  · simp

/-- With the flag still down and fewer than nine samples recorded, this frame
cannot report a blink: the ten-sample window cannot be full yet. -/
theorem blink_out_small (d : LD) (e : Option ℚ)
    (hcap : d.ear_history_len = 10) (hlen : d.ear_history.length ≤ 8)
    (hflag : d.blink_detected = false) :
    (detect_blink_presence d e).2 = false := by
  cases e with
  | none => rfl
  | some x =>
      simp only [detect_blink_presence]
      have hle := pushTrim_length_le d.ear_history x d.ear_history_len
      rw [blinkCond_of_len_ne _ _ _ (by omega), hflag]
      rfl

theorem absdiffSum_self (f : Frame) : absdiffSum f f = 0 := by
  simp only [absdiffSum]
  induction f with
  | nil => rfl
  | cons a t ih => simp [Nat.dist_self, ih]

theorem getD_replicate {α : Type} (x dflt : α) (n i : ℕ) (h : i < n) :
    (List.replicate n x).getD i dflt = x := by
  rw [List.getD_eq_getElem _ _ (by simpa using h)]
  exact List.getElem_replicate _ _

theorem pushTrim_replicate (f : Frame) (m cap : ℕ) (hcap : 2 ≤ cap) :
    ∃ k, 1 ≤ k ∧ pushTrim (List.replicate m f) f cap = List.replicate k f ∧
      (1 ≤ m → 2 ≤ k) := by
  simp only [pushTrim]
  have h1 : List.replicate m f ++ [f] = List.replicate (m + 1) f :=
    (List.replicate_succ' m f).symm
  rw [h1]
  split
  · rename_i hlt
    rw [List.length_replicate] at hlt
    refine ⟨m, by omega, ?_, fun _ => by omega⟩
    rw [List.replicate_succ]
    rfl
  · exact ⟨m + 1, by omega, rfl, fun h => by omega⟩

/-- With at least one identical frame already buffered, the frame variation
signal on the next identical frame is a zero score, classified static. -/
theorem variation_out_replicate (d : LD) (f : Frame) (m : ℕ) (hm : 1 ≤ m)
    (hfh : d.frame_history = List.replicate m f) (hmax : d.max_history = 5) :
    (detect_frame_variation d f).2.1 = false := by
  obtain ⟨k, hk1, heq, hk2⟩ := pushTrim_replicate f m 5 (by omega)
  have hk2m := hk2 hm
  simp only [detect_frame_variation, hfh, hmax, heq]
  rw [if_neg (by rw [List.length_replicate]; omega)]
  dsimp only
  rw [List.length_replicate]
  rw [getD_replicate _ _ _ _ (by omega), getD_replicate _ _ _ _ (by omega)]
  rw [absdiffSum_self]
  simp

/-- One `check_liveness` step under a constant frame: the verdict is `false`
and the state invariant (constant frame history, default configuration) is
preserved. -/
theorem check_liveness_const_step (d : LD) (f : Frame) (e : Option ℚ)
    (hcap : d.ear_history_len = 10) (hmax : d.max_history = 5)
    (hfh : ∃ m, d.frame_history = List.replicate m f)
    (h0 : d.frame_history = [] → d.ear_history.length ≤ 8 ∧ d.blink_detected = false) :
    (check_liveness d ⟨f, e⟩).2 = false ∧
    (check_liveness d ⟨f, e⟩).1.ear_history_len = 10 ∧
    (check_liveness d ⟨f, e⟩).1.max_history = 5 ∧
    ∃ k, 1 ≤ k ∧ (check_liveness d ⟨f, e⟩).1.frame_history = List.replicate k f := by
  obtain ⟨m, hm⟩ := hfh
  have hvs := variation_state d f
  have hstate : (check_liveness d ⟨f, e⟩).1 =
      (detect_blink_presence (detect_frame_variation d f).1 e).1 := rfl
  have hout : (check_liveness d ⟨f, e⟩).2 =
      ((detect_frame_variation d f).2.1 &&
        (detect_blink_presence (detect_frame_variation d f).1 e).2) := rfl
  have hbf := blink_state_fields (detect_frame_variation d f).1 e
  have hcap1 : (check_liveness d ⟨f, e⟩).1.ear_history_len = 10 := by
    rw [hstate, hbf.2.2, hvs]
    exact hcap
  have hmax1 : (check_liveness d ⟨f, e⟩).1.max_history = 5 := by
    rw [hstate, hbf.2.1, hvs]
    exact hmax
  have hfh1 : ∃ k, 1 ≤ k ∧
      (check_liveness d ⟨f, e⟩).1.frame_history = List.replicate k f := by
    obtain ⟨k, hk1, heq, -⟩ := pushTrim_replicate f m 5 (by omega)
    refine ⟨k, hk1, ?_⟩
    rw [hstate, hbf.1, hvs]
    show pushTrim d.frame_history f d.max_history = List.replicate k f
    rw [hm, hmax, heq]
  refine ⟨?_, hcap1, hmax1, hfh1⟩
  by_cases hnil : d.frame_history = []
  · have h08 := h0 hnil
    have hb : (detect_blink_presence (detect_frame_variation d f).1 e).2 = false := by
      apply blink_out_small
      · rw [hvs]
        exact hcap
      · rw [hvs]
        exact h08.1
      · rw [hvs]
        exact h08.2
    rw [hout, hb, Bool.and_false]
  · have hm1 : 1 ≤ m := by
      rcases Nat.eq_zero_or_pos m with h | h
      · exact absurd (by rw [hm, h]; rfl) hnil
      · exact h
    rw [hout, variation_out_replicate d f m hm1 hm hmax, Bool.false_and]

/-- Running `check_liveness` from a state satisfying the constant-frame
invariant yields `false` on every frame. -/
theorem run_const_never_live_aux (f : Frame) :
    ∀ (ears : List (Option ℚ)) (d : LD), d.ear_history_len = 10 →
      d.max_history = 5 →
      (∃ m, d.frame_history = List.replicate m f) →
      (d.frame_history = [] → d.ear_history.length ≤ 8 ∧ d.blink_detected = false) →
      (runLiveness d (ears.map fun e => ⟨f, e⟩)).1 =
        List.replicate ears.length false
  | [], d, _, _, _, _ => rfl
  | e :: es, d, hcap, hmax, hfh, h0 => by
      obtain ⟨hout, hcap1, hmax1, k, hk1, hfh1⟩ :=
        check_liveness_const_step d f e hcap hmax hfh h0
      simp only [List.map_cons, runLiveness, List.length_cons, List.replicate_succ]
      rw [hout]
      congr 1
      exact run_const_never_live_aux f es _ hcap1 hmax1 ⟨k, hfh1⟩
        (fun hnil => by
          rw [hfh1] at hnil
          have hlen := congrArg List.length hnil
          rw [List.length_replicate, List.length_nil] at hlen
          omega)

/-- Claim C4: a fresh default `LivenessDetector` fed any sequence of
pairwise-identical frames (every consecutive absolute-difference sum is zero)
never reports `is_live = true` on any frame, whatever EAR samples the landmark
capability extracts: the per-frame verdict list is all-`false`, because the
verdict is the conjunction of the frame-variation signal and the blink flag. -/
theorem identical_frames_never_live (f : Frame) (ears : List (Option ℚ)) :
    (runLiveness LD.init (ears.map fun e => ⟨f, e⟩)).1 =
      List.replicate ears.length false :=
  run_const_never_live_aux f ears LD.init rfl rfl ⟨0, rfl⟩
    (fun _ => ⟨by simp [LD.init], rfl⟩)

theorem blink_presence_mono (d : LD) (ear : Option ℚ)
    (h : d.blink_detected = true) :
    (detect_blink_presence d ear).1.blink_detected = true := by
  cases ear with
  | none => exact h
  | some e => simp [detect_blink_presence, h]

theorem check_liveness_blink_mono (d : LD) (i : LInput)
    (h : d.blink_detected = true) :
    (check_liveness d i).1.blink_detected = true := by
  show (detect_blink_presence (detect_frame_variation d i.frame).1 i.ear).1.blink_detected
    = true
  apply blink_presence_mono
  rw [variation_state]
  exact h

/-- Claim C3: when a pushed EAR sample makes the full window contain a sample
strictly below the blink threshold while the most recent sample is strictly
above it, the sticky blink flag is set; once `blink_detected` is true it
survives every subsequent `check_liveness` frame (whatever its frame content
and EAR sample, including samples that never dip below the threshold again);
and `reset` is what clears it. -/
theorem blink_flag_sticky (d : LD) (e : ℚ)
    (h : blinkCond d.blink_threshold d.ear_history_len
      (pushTrim d.ear_history e d.ear_history_len) = true) :
    (detect_blink_presence d (some e)).1.blink_detected = true ∧
    (∀ (d2 : LD) (inputs : List LInput), d2.blink_detected = true →
      (runLiveness d2 inputs).2.blink_detected = true) ∧
    (∀ d3 : LD, (LD.reset d3).blink_detected = false) := by
  refine ⟨?_, ?_, fun d3 => rfl⟩
  · simp [detect_blink_presence, h]
  · intro d2 inputs
    induction inputs generalizing d2 with
    | nil => exact fun h2 => h2
    | cons i is ih =>
        intro h2
        simp only [runLiveness]
        exact ih _ (check_liveness_blink_mono d2 i h2)

/-- Witness for C3 at a concrete state: nine samples recorded with one dip to
`0.1 < 0.25`, and a tenth sample `0.3 > 0.25` fills the window and raises the
sticky flag. -/
theorem blink_flag_sticky_witness :
    blinkCond ldBlinkW.blink_threshold ldBlinkW.ear_history_len
      (pushTrim ldBlinkW.ear_history (3/10) ldBlinkW.ear_history_len) = true ∧
    (detect_blink_presence ldBlinkW (some (3/10))).1.blink_detected = true := by
  have hc : blinkCond ldBlinkW.blink_threshold ldBlinkW.ear_history_len
      (pushTrim ldBlinkW.ear_history (3/10) ldBlinkW.ear_history_len) = true := by
    simp only [ldBlinkW, LD.init, pushTrim, blinkCond]
    norm_num
  exact ⟨hc, (blink_flag_sticky ldBlinkW (3/10) hc).1⟩

end FaceAttend
